import Mathlib

/-!
Verification of the core type-inference / code-emission engine of the
`edres` crate (src/edres_core), as a shallow embedding in Lean 4.

The embedding follows `src/edres_core/src/codegen.rs` and
`src/edres_core/src/parsing/mod.rs` (and, where a claim cites it, the
older copy in `src/edres_core/src/gen.rs`).  Rust `Result` values
together with possible panics are modelled by the three-way `Res` type;
machine integers are modelled as `Int`/`Nat` with explicit wrap-around
where the source casts can truncate; `proc_macro2::TokenStream` output
is modelled by the structured types `RustType`, `RustExpr`,
`StructDecl`, `Inherent` and `EnumTokens`, which record exactly the
information the quoted token streams carry.
-/

set_option maxHeartbeats 1000000

/-- The generic value model of `src/edres_core/src/value.rs` (`enum Value`).
`Struct(Struct)` holds an `IndexMap<String, Value>`, i.e. an ordered list
of key/value pairs; it is embedded as `List (String × Value)`.  Integer
payloads are embedded as unbounded `Int`/`Nat` (the Rust constructors
bound them, and no embedded operation relies on the bound); float
payloads are kept as opaque bit patterns since no embedded operation
inspects them. -/
inductive Value where
  | unit
  | bool (x : Bool)
  | char (x : Char)
  | i8 (x : Int)
  | i16 (x : Int)
  | i32 (x : Int)
  | i64 (x : Int)
  | i128 (x : Int)
  | isize (x : Int)
  | u8 (x : Nat)
  | u16 (x : Nat)
  | u32 (x : Nat)
  | u64 (x : Nat)
  | u128 (x : Nat)
  | usize (x : Nat)
  | f32 (bits : Nat)
  | f64 (bits : Nat)
  | string (s : String)
  | option (x : Option Value)
  | tuple (vs : List Value)
  | array (len : Nat) (vs : List Value)
  | vec (vs : List Value)
  | struct (fields : List (String × Value))
deriving Repr

/-- The payload of `Value::Struct` / the `Struct`-`Map` type of `value.rs`:
an insertion-ordered string-keyed map. -/
abbrev Fields := List (String × Value)

/-- The error cases of `src/edres_core/src/error.rs` reachable from the
embedded functions (`Error::ExpectedValuesInMap`, raised by
`establish_types_for_values` on an empty value list). -/
inductive Err where
  | expectedValuesInMap
deriving Repr, DecidableEq

/-- Result of a Rust computation that may return `Err` or panic
(`assert_eq!` / `unwrap`).  `ok` and `err` model `Result`; `panicked`
models a panic. -/
inductive Res (α : Type) where
  | ok (a : α)
  | err (e : Err)
  | panicked
deriving Repr

namespace Res

def bind : Res α → (α → Res β) → Res β
  | .ok a, f => f a
  | .err e, _ => .err e
  | .panicked, _ => .panicked

def map (f : α → β) : Res α → Res β
  | .ok a => .ok (f a)
  | .err e => .err e
  | .panicked => .panicked

instance : Monad Res where
  pure := .ok
  bind := bind
  map := map

@[simp] theorem bind_ok (a : α) (f : α → Res β) : bind (.ok a) f = f a := rfl
@[simp] theorem bind_err (e : Err) (f : α → Res β) : bind (.err e) f = .err e := rfl
@[simp] theorem bind_panicked (f : α → Res β) : bind (.panicked : Res α) f = .panicked := rfl
@[simp] theorem map_ok (f : α → β) (a : α) : map f (.ok a) = .ok (f a) := rfl
@[simp] theorem map_err (f : α → β) (e : Err) : map f (.err e : Res α) = .err e := rfl
@[simp] theorem map_panicked (f : α → β) : map f (.panicked : Res α) = .panicked := rfl

end Res

/-! ## Value unification (`src/edres_core/src/parsing/mod.rs`) -/

/-- True exactly when the value matches `Value::Option(_)`
(the `matches!(v, Value::Option(_))` test in `unify_values`). -/
def isOptionValue : Value → Bool
  | .option _ => true
  | _ => false

/-- Modelled from the spec: `Value::wrap_in_option` is called by
`unify_values` (parsing/mod.rs line 102) but its definition is not
present under src/.  Per the spec, unification promotes every element to
Optional by "wrapping non-optional siblings in present", so an already
optional value is left unchanged and any other value `v` becomes
`Option(Some(v))`.  (The in-src test `unify_option_types` confirms this:
an element that is already `Some(Unit)` stays `Some(Unit)`.) -/
def wrap_in_option : Value → Value
  | .option x => .option x
  | v => .option (some v)

mutual

/-- `unify_value` of parsing/mod.rs: recursively unifies inside a single
value.  The source mutates in place and returns `Result<(), Error>` with
no `Err` construction site; it is embedded as returning the updated
value in `Res`. -/
def unify_value : Value → Res Value
  | .option (some inner) => (unify_value inner).map (fun i => .option (some i))
  | .tuple items => (unify_each items).map .tuple
  | .array n items => (unify_values items).map (.array n)
  | .vec items => (unify_values items).map .vec
  | .struct inner => (unify_fields inner).map .struct
  | v => .ok v

/-- The element-wise loop `for v in values.iter_mut() { unify_value(v)?; }`
(used both by `unify_values` and by the `Tuple` arm of `unify_value`). -/
def unify_each : List Value → Res (List Value)
  | [] => .ok []
  | v :: rest =>
      (unify_value v).bind fun v' =>
        (unify_each rest).map (fun rest' => v' :: rest')

/-- The field loop `for value in inner.0.values_mut() { unify_value(value)?; }`
of the `Struct` arm. -/
def unify_fields : List (String × Value) → Res (List (String × Value))
  | [] => .ok []
  | (k, v) :: rest =>
      (unify_value v).bind fun v' =>
        (unify_fields rest).map (fun rest' => (k, v') :: rest')

/-- `unify_values` of parsing/mod.rs: unify each element, then, if any
element of the slice is an `Option`, wrap every element in an `Option`. -/
def unify_values (values : List Value) : Res (List Value) :=
  (unify_each values).bind fun vs =>
    .ok (if vs.any isOptionValue then vs.map wrap_in_option else vs)

end

/-! ## Numeric width policy (`src/edres_core/src/parsing/mod.rs`) -/

/-- `IntSize` of `src/edres_core/src/options.rs`. -/
inductive IntSize where
  | i8
  | i16
  | i32
  | i64
  | i128
  | iSize
deriving Repr, DecidableEq

/-- Two's-complement wrap of an integer to `w` bits: the result of a Rust
`as` cast to a `w`-bit signed type.  Used to model `value as isize`
(pointer width taken as 64 bits). -/
def wrapCast (w : Nat) (v : Int) : Int :=
  (v + 2 ^ (w - 1)) % 2 ^ w - 2 ^ (w - 1)

/-- `preferred_int` of parsing/mod.rs: pick an integer `Value` for `value`
(an `i128`) given the preferred size.  The Rust match arms are embedded
in order; a guard such as `value >= (i8::MIN as i128) && value <= (i8::MAX as i128)`
guarantees that the following `value as i8` cast is exact, so those arms
store `value` unchanged, while the unguarded `ISize => Value::ISize(value as isize)`
arm truncates to the pointer width. -/
def preferred_int (value : Int) (preferred : IntSize) : Value :=
  match preferred with
  | .iSize => .isize (wrapCast 64 value)
  | p =>
    if p = .i8 ∧ -128 ≤ value ∧ value ≤ 127 then
      .i8 value
    else if (p = .i8 ∨ p = .i16) ∧ -32768 ≤ value ∧ value ≤ 32767 then
      .i16 value
    else if (p = .i8 ∨ p = .i16 ∨ p = .i32) ∧ -2147483648 ≤ value ∧ value ≤ 2147483647 then
      .i32 value
    else if (p = .i8 ∨ p = .i16 ∨ p = .i32 ∨ p = .i64) ∧
        -9223372036854775808 ≤ value ∧ value ≤ 9223372036854775807 then
      .i64 value
    else
      .i128 value

/-- The integer carried by a signed-integer `Value`, if any. -/
def intValueOf : Value → Option Int
  | .i8 x => some x
  | .i16 x => some x
  | .i32 x => some x
  | .i64 x => some x
  | .i128 x => some x
  | .isize x => some x
  | _ => none

/-- The bit width of a signed-integer `Value`, if any (`isize` is the
64-bit pointer width). -/
def intWidthOf : Value → Option Nat
  | .i8 _ => some 8
  | .i16 _ => some 16
  | .i32 _ => some 32
  | .i64 _ => some 64
  | .i128 _ => some 128
  | .isize _ => some 64
  | _ => none

/-- The bit width named by an `IntSize` (`iSize` is the 64-bit pointer
width). -/
def intSizeBits : IntSize → Nat
  | .i8 => 8
  | .i16 => 16
  | .i32 => 32
  | .i64 => 64
  | .i128 => 128
  | .iSize => 64

/-- `v` is representable in a `w`-bit signed integer. -/
def fitsWidth (v : Int) (w : Nat) : Prop :=
  -(2 ^ (w - 1)) ≤ v ∧ v < 2 ^ (w - 1)

instance (v : Int) (w : Nat) : Decidable (fitsWidth v w) := by
  unfold fitsWidth; infer_instance

/-- `array_or_vec` of parsing/mod.rs: a parsed sequence becomes a fixed
array when a maximum array size is set and the sequence is no longer
than it, and a variable-length vec otherwise. -/
def array_or_vec (seq : List Value) (max_array_size : Option Nat) : Value :=
  match max_array_size with
  | some m => if seq.length ≤ m then .array seq.length seq else .vec seq
  | none => .vec seq

/-! ## Token-stream models for the codegen output (`src/edres_core/src/codegen.rs`) -/

/-- The Rust type expressions produced by `type_of_value`: primitives,
`std::borrow::Cow<'static, str>` for strings, `Option<T>`, `[T; N]`,
`Cow<'static, [T]>` for vecs, tuples, and named (generated) struct
types. -/
inductive RustType where
  | unit
  | bool
  | char
  | i8
  | i16
  | i32
  | i64
  | i128
  | isize
  | u8
  | u16
  | u32
  | u64
  | u128
  | usize
  | f32
  | f64
  | cowStr
  | option (t : RustType)
  | array (t : RustType) (len : Nat)
  | cowSlice (t : RustType)
  | tuple (ts : List RustType)
  | named (name : String)
deriving Repr

/-- The Rust literal expressions produced by `define_value`: scalar
literals, `std::borrow::Cow::Borrowed("...")`, `Some(..)` / `None`,
array literals, `Cow::Borrowed(&[..])`, tuple literals, and struct
literals `Name { field: expr, .. }`. -/
inductive RustExpr where
  | unit
  | bool (x : Bool)
  | char (x : Char)
  | i8 (x : Int)
  | i16 (x : Int)
  | i32 (x : Int)
  | i64 (x : Int)
  | i128 (x : Int)
  | isize (x : Int)
  | u8 (x : Nat)
  | u16 (x : Nat)
  | u32 (x : Nat)
  | u64 (x : Nat)
  | u128 (x : Nat)
  | usize (x : Nat)
  | f32 (bits : Nat)
  | f64 (bits : Nat)
  | cowBorrowedStr (s : String)
  | someV (e : RustExpr)
  | noneV
  | arrayLit (es : List RustExpr)
  | cowBorrowedSlice (es : List RustExpr)
  | tupleLit (es : List RustExpr)
  | structLit (name : String) (fields : List (String × RustExpr))
deriving Repr

/-- One emitted struct declaration:
`#[allow(non_camel_case_types)] #(#derives)* pub struct name { fields }`. -/
structure StructDecl where
  name : String
  derives : Option (List String)
  fields : List (String × RustType)
deriving Repr

/-! ## Options (used by codegen.rs) -/

/-- `SerdeSupport` of `src/edres_core/src/options.rs`. -/
inductive SerdeSupport where
  | no
  | yes
  | mixed (serialize : Bool) (deserialize : Bool)
deriving Repr, DecidableEq

/-- `SerdeSupport::should_derive_ser_de` of options.rs. -/
def SerdeSupport.should_derive_ser_de : SerdeSupport → Option (Bool × Bool)
  | .no => none
  | .yes => some (true, true)
  | .mixed serialize deserialize =>
      if !(serialize || deserialize) then none else some (serialize, deserialize)

/-- Modelled from the spec: the `StructOptions` sub-struct of the
`Options` type read by codegen.rs is not present under src/ (options.rs
only holds the legacy option types); it is embedded with exactly the
fields codegen.rs reads: `derived_traits` and `struct_data_const_name`. -/
structure StructOptions where
  derived_traits : List String
  struct_data_const_name : Option String
deriving Repr

/-- Modelled from the spec: the `EnumOptions` sub-struct of the `Options`
type read by codegen.rs is not present under src/; it is embedded with
exactly the fields codegen.rs reads. -/
structure EnumOptions where
  derived_traits : List String
  impl_default : Bool
  impl_display : Bool
  impl_from_str : Bool
  all_variants_const_name : Option String
  all_values_const_name : Option String
  values_struct_name : Option String
  get_value_fn_name : Option String
  values_struct_options : StructOptions
deriving Repr

/-- Modelled from the spec: the `Options` struct read by codegen.rs is
not present under src/; it is embedded with exactly the fields
codegen.rs reads (`serde_support`, `source_path_const_name`, and the
struct/enum sub-options). -/
structure Options where
  serde_support : SerdeSupport
  source_path_const_name : Option String
  structs : StructOptions
  enums : EnumOptions
deriving Repr

/-- Modelled from the spec: `Options::minimal()` turns every optional
capability off.  (The codegen.rs doctests under src/ show its effect: a
bare struct or enum with no derive list, no constants and no extra trait
impls.) -/
def Options.minimal : Options :=
  { serde_support := .no
    source_path_const_name := none
    structs := { derived_traits := [], struct_data_const_name := none }
    enums :=
      { derived_traits := []
        impl_default := false
        impl_display := false
        impl_from_str := false
        all_variants_const_name := none
        all_values_const_name := none
        values_struct_name := none
        get_value_fn_name := none
        values_struct_options := { derived_traits := [], struct_data_const_name := none } } }

/-- `derive_attribute` of codegen.rs: assemble the derive list from the
requested trait list, serde support, and the require-debug flag; `None`
when the list ends up empty (no attribute emitted). -/
def derive_attribute (trait_list : List String) (serde_support : SerdeSupport)
    (require_debug : Bool) : Option (List String) :=
  let derives := trait_list
  let deriving_debug := trait_list.any (· = "Debug")
  let sd := (serde_support.should_derive_ser_de).getD (false, false)
  let derives := if sd.1 then derives ++ ["serde::Serialize"] else derives
  let derives := if sd.2 then derives ++ ["serde::Deserialize"] else derives
  let derives := if !deriving_debug && require_debug then derives ++ ["Debug"] else derives
  if derives.isEmpty then none else some derives

/-! ## The type-inference walk (`type_of_value` of codegen.rs) -/

/-- The name computed for a nested struct from the enclosing struct name
and the key / tuple-index context (the `let key = ..; let index = ..;
let name = format!("{}{}{}", struct_name, key, index)` block that appears
verbatim in both `type_of_value` and `define_value`). -/
def nested_struct_name (struct_name : String) (under_key : Option String)
    (under_index : Option Nat) : String :=
  let key := match under_key with
    | none => ""
    | some k => "__" ++ k
  let index := match under_index with
    | none => ""
    | some i => "__" ++ toString i
  struct_name ++ key ++ index

mutual

/-- `type_of_value` of codegen.rs (lines 758-834): compute the Rust type
of a value; nested structs are pushed onto `new_structs` (embedded as
the returned list, in push order).  The `assert_eq!(values.len(), *len)`
in the `Array` arm is modelled by `.panicked`. -/
def type_of_value (v : Value) (struct_name : String) (under_key : Option String)
    (under_index : Option Nat) : Res (RustType × List (String × Fields)) :=
  match v with
  | .unit => .ok (.unit, [])
  | .bool _ => .ok (.bool, [])
  | .char _ => .ok (.char, [])
  | .i8 _ => .ok (.i8, [])
  | .i16 _ => .ok (.i16, [])
  | .i32 _ => .ok (.i32, [])
  | .i64 _ => .ok (.i64, [])
  | .i128 _ => .ok (.i128, [])
  | .isize _ => .ok (.isize, [])
  | .u8 _ => .ok (.u8, [])
  | .u16 _ => .ok (.u16, [])
  | .u32 _ => .ok (.u32, [])
  | .u64 _ => .ok (.u64, [])
  | .u128 _ => .ok (.u128, [])
  | .usize _ => .ok (.usize, [])
  | .f32 _ => .ok (.f32, [])
  | .f64 _ => .ok (.f64, [])
  | .string _ => .ok (.cowStr, [])
  | .option (some value) =>
      (type_of_value value struct_name under_key none).map fun p =>
        (.option p.1, p.2)
  | .option none => .ok (.option .unit, [])
  | .array len values =>
      if values.length = len then
        match values with
        | [] => .ok (.array .unit len, [])
        | v0 :: _ =>
            (type_of_value v0 struct_name under_key none).map fun p =>
              (.array p.1 len, p.2)
      else .panicked
  | .vec values =>
      match values with
      | [] => .ok (.cowSlice .unit, [])
      | v0 :: _ =>
          (type_of_value v0 struct_name under_key none).map fun p =>
            (.cowSlice p.1, p.2)
  | .tuple values =>
      (type_of_value_tuple values struct_name under_key 0).map fun p =>
        (.tuple p.1, p.2)
  | .struct mapping =>
      let name := nested_struct_name struct_name under_key under_index
      .ok (.named name, [(name, mapping)])

/-- The `values.iter().enumerate().map(|(i, v)| type_of_value(v, .., Some(i), ..))`
loop of the `Tuple` arm, with `i` the running tuple index. -/
def type_of_value_tuple (vs : List Value) (struct_name : String)
    (under_key : Option String) (i : Nat) :
    Res (List RustType × List (String × Fields)) :=
  match vs with
  | [] => .ok ([], [])
  | v :: rest =>
      (type_of_value v struct_name under_key (some i)).bind fun p =>
        (type_of_value_tuple rest struct_name under_key (i + 1)).map fun q =>
          (p.1 :: q.1, p.2 ++ q.2)

end

/-! ## The value-emission walk (`define_value` of codegen.rs) -/

mutual

/-- `define_value` of codegen.rs (lines 836-903): emit the literal
expression for a value.  The source returns `Result` but contains no
error site, so the embedding is total. -/
def define_value (v : Value) (struct_name : String) (under_key : Option String)
    (under_index : Option Nat) : RustExpr :=
  match v with
  | .unit => .unit
  | .bool x => .bool x
  | .char x => .char x
  | .i8 x => .i8 x
  | .i16 x => .i16 x
  | .i32 x => .i32 x
  | .i64 x => .i64 x
  | .i128 x => .i128 x
  | .isize x => .isize x
  | .u8 x => .u8 x
  | .u16 x => .u16 x
  | .u32 x => .u32 x
  | .u64 x => .u64 x
  | .u128 x => .u128 x
  | .usize x => .usize x
  | .f32 x => .f32 x
  | .f64 x => .f64 x
  | .string s => .cowBorrowedStr s
  | .option (some x) => .someV (define_value x struct_name under_key under_index)
  | .option none => .noneV
  | .array _ values =>
      .arrayLit (define_value_elems values struct_name under_key under_index)
  | .vec values =>
      .cowBorrowedSlice (define_value_elems values struct_name under_key under_index)
  | .tuple values =>
      .tupleLit (define_value_tuple values struct_name under_key 0)
  | .struct fields =>
      let name := nested_struct_name struct_name under_key under_index
      define_struct_value fields name

/-- The element loop of the `Array` / `Vec` arms of `define_value`
(every element, with the key and index context passed through). -/
def define_value_elems (vs : List Value) (struct_name : String)
    (under_key : Option String) (under_index : Option Nat) : List RustExpr :=
  match vs with
  | [] => []
  | v :: rest =>
      define_value v struct_name under_key under_index ::
        define_value_elems rest struct_name under_key under_index

/-- The `enumerate` loop of the `Tuple` arm of `define_value`. -/
def define_value_tuple (vs : List Value) (struct_name : String)
    (under_key : Option String) (i : Nat) : List RustExpr :=
  match vs with
  | [] => []
  | v :: rest =>
      define_value v struct_name under_key (some i) ::
        define_value_tuple rest struct_name under_key (i + 1)

/-- `define_struct_value` of codegen.rs (lines 905-920): emit
`#struct_name { #key: #value, .. }`, each field value emitted under its
key. -/
def define_struct_value (data : Fields) (struct_name : String) : RustExpr :=
  .structLit struct_name (define_struct_value_fields data struct_name)

/-- The field loop of `define_struct_value`. -/
def define_struct_value_fields (data : Fields) (struct_name : String) :
    List (String × RustExpr) :=
  match data with
  | [] => []
  | (key, value) :: rest =>
      (key, define_value value struct_name (some key) none) ::
        define_struct_value_fields rest struct_name

end

/-! ## Result-shape lemmas and the sequencing helper for source loops -/

@[simp] theorem Res.map_eq_ok {f : α → β} {r : Res α} {b : β} :
    r.map f = .ok b ↔ ∃ a, r = .ok a ∧ f a = b := by
  cases r <;> simp [Res.map]

@[simp] theorem Res.bind_eq_ok {r : Res α} {f : α → Res β} {b : β} :
    r.bind f = .ok b ↔ ∃ a, r = .ok a ∧ f a = .ok b := by
  cases r <;> simp [Res.bind]

/-- Sequencing of a fallible body over a list (the shape of the
`collect::<Result<Vec<_>, _>>()` / `for` loops in the source). -/
def mapRes (f : α → Res β) : List α → Res (List β)
  | [] => .ok []
  | a :: as => (f a).bind fun b => (mapRes f as).map fun bs => b :: bs

theorem mapRes_pmap (g : α → Res β) (l : List α) {P : α → Prop}
    (H : ∀ x ∈ l, P x) :
    mapRes (fun p => g p.1) (l.pmap Subtype.mk H) = mapRes g l := by
  induction l with
  | nil => rfl
  | cons a as ih => simp only [List.pmap, mapRes]; rw [ih]

theorem mapRes_attach (l : List α) (g : α → Res β) :
    mapRes (fun p => g p.1) l.attach = mapRes g l := by
  have h := mapRes_pmap g l (P := fun x => x ∈ l) (fun _ hx => hx)
  simpa [List.attach, List.attachWith] using h

/-! ## Size bounds for the sub-structs collected by `type_of_value`
(justifying termination of `define_structs_inner`, whose recursion the
Rust source performs on the `new_structs` vector filled in by
`type_of_value`). -/

theorem type_of_value_size_bound (N : Nat) :
    (∀ v : Value, sizeOf v ≤ N → ∀ n k io r, type_of_value v n k io = .ok r →
      ∀ p ∈ r.2, sizeOf p.2 < sizeOf v) ∧
    (∀ vs : List Value, sizeOf vs ≤ N → ∀ n k i r, type_of_value_tuple vs n k i = .ok r →
      ∀ p ∈ r.2, sizeOf p.2 < sizeOf vs) := by
  induction N with
  | zero =>
    constructor
    · intro v hv
      cases v <;> simp at hv
    · intro vs hvs
      cases vs <;> simp at hvs
  | succ N ih =>
    constructor
    · intro v hv n k io r h
      cases v with
      | option x =>
        cases x with
        | none => simp [type_of_value] at h; subst h; simp
        | some value =>
          simp only [type_of_value, Res.map_eq_ok] at h
          obtain ⟨a, ha, rfl⟩ := h
          intro p hp
          simp only [Value.option.sizeOf_spec, Option.some.sizeOf_spec] at hv ⊢
          have hrec := ih.1 value (by omega) n k none a ha p hp
          omega
      | array len vs =>
        cases vs with
        | nil =>
          simp only [type_of_value, List.length_nil] at h
          split at h
          · simp at h; subst h; simp
          · cases h
        | cons v0 rest =>
          simp only [type_of_value] at h
          split at h
          · simp only [Res.map_eq_ok] at h
            obtain ⟨a, ha, rfl⟩ := h
            intro p hp
            simp only [Value.array.sizeOf_spec, List.cons.sizeOf_spec] at hv ⊢
            have hrec := ih.1 v0 (by omega) n k none a ha p hp
            omega
          · cases h
      | vec vs =>
        cases vs with
        | nil => simp [type_of_value] at h; subst h; simp
        | cons v0 rest =>
          simp only [type_of_value, Res.map_eq_ok] at h
          obtain ⟨a, ha, rfl⟩ := h
          intro p hp
          simp only [Value.vec.sizeOf_spec, List.cons.sizeOf_spec] at hv ⊢
          have hrec := ih.1 v0 (by omega) n k none a ha p hp
          omega
      | tuple vs =>
        simp only [type_of_value, Res.map_eq_ok] at h
        obtain ⟨a, ha, rfl⟩ := h
        intro p hp
        simp only [Value.tuple.sizeOf_spec] at hv ⊢
        have hrec := ih.2 vs (by omega) n k 0 a ha p hp
        omega
      | struct fields =>
        simp only [type_of_value, Res.ok.injEq] at h
        subst h
        intro p hp
        simp only [List.mem_singleton] at hp
        subst hp
        simp only [Value.struct.sizeOf_spec]
        omega
      | unit => simp [type_of_value] at h; subst h; simp
      | bool _ => simp [type_of_value] at h; subst h; simp
      | char _ => simp [type_of_value] at h; subst h; simp
      | i8 _ => simp [type_of_value] at h; subst h; simp
      | i16 _ => simp [type_of_value] at h; subst h; simp
      | i32 _ => simp [type_of_value] at h; subst h; simp
      | i64 _ => simp [type_of_value] at h; subst h; simp
      | i128 _ => simp [type_of_value] at h; subst h; simp
      | isize _ => simp [type_of_value] at h; subst h; simp
      | u8 _ => simp [type_of_value] at h; subst h; simp
      | u16 _ => simp [type_of_value] at h; subst h; simp
      | u32 _ => simp [type_of_value] at h; subst h; simp
      | u64 _ => simp [type_of_value] at h; subst h; simp
      | u128 _ => simp [type_of_value] at h; subst h; simp
      | usize _ => simp [type_of_value] at h; subst h; simp
      | f32 _ => simp [type_of_value] at h; subst h; simp
      | f64 _ => simp [type_of_value] at h; subst h; simp
      | string _ => simp [type_of_value] at h; subst h; simp
    · intro vs hvs n k i r h
      cases vs with
      | nil => simp [type_of_value_tuple] at h; subst h; simp
      | cons v rest =>
        simp only [type_of_value_tuple, Res.bind_eq_ok, Res.map_eq_ok] at h
        obtain ⟨a, ha, b, hb, rfl⟩ := h
        intro p hp
        simp only [List.cons.sizeOf_spec] at hvs ⊢
        rcases List.mem_append.mp hp with hmem | hmem
        · have hrec := ih.1 v (by omega) n k (some i) a ha p hmem
          omega
        · have hrec := ih.2 rest (by omega) n k (i + 1) b hb p hmem
          omega

theorem type_of_value_size (v : Value) (n : String) (k : Option String)
    (io : Option Nat) (r : RustType × List (String × Fields))
    (h : type_of_value v n k io = .ok r) :
    ∀ p ∈ r.2, sizeOf p.2 < sizeOf v :=
  (type_of_value_size_bound (sizeOf v)).1 v le_rfl n k io r h

/-! ## Struct declaration emission (`define_structs_inner` of codegen.rs) -/

/-- The field loop of `define_structs_inner` (codegen.rs lines 120-127):
for every `(key, value)` pair compute the field type via `type_of_value`
with the key as context, accumulating the declared fields and the
`sub_structs` vector in push order. -/
def struct_fields_and_subs (data : Fields) (struct_name : String) :
    Res (List (String × RustType) × List (String × Fields)) :=
  match data with
  | [] => .ok ([], [])
  | (key, value) :: rest =>
      (type_of_value value struct_name (some key) none).bind fun p =>
        (struct_fields_and_subs rest struct_name).map fun q =>
          ((key, p.1) :: q.1, p.2 ++ q.2)

theorem struct_fields_and_subs_size (data : Fields) (n : String)
    (r : List (String × RustType) × List (String × Fields))
    (h : struct_fields_and_subs data n = .ok r) :
    ∀ p ∈ r.2, sizeOf p.2 < sizeOf data := by
  induction data generalizing r with
  | nil => simp [struct_fields_and_subs] at h; subst h; simp
  | cons kv rest ih =>
    obtain ⟨key, value⟩ := kv
    simp only [struct_fields_and_subs, Res.bind_eq_ok, Res.map_eq_ok] at h
    obtain ⟨a, ha, b, hb, rfl⟩ := h
    intro p hp
    simp only [List.cons.sizeOf_spec, Prod.mk.sizeOf_spec] at *
    rcases List.mem_append.mp hp with hmem | hmem
    · have := type_of_value_size value n (some key) none a ha p hmem
      omega
    · have := ih b hb p hmem
      omega

/-- `define_structs_inner` of codegen.rs (lines 114-148): emit the struct
declaration for `data` (fields typed by `type_of_value`), followed by
the declarations of every collected sub-struct, recursively, in
collection order.  The Rust recursion runs over the `sub_structs`
vector; termination is justified by `struct_fields_and_subs_size`. -/
def define_structs_inner (data : Fields) (struct_name : String)
    (derives : Option (List String)) : Res (List StructDecl) :=
  match h : struct_fields_and_subs data struct_name with
  | .err e => .err e
  | .panicked => .panicked
  | .ok (fields, sub_structs) =>
      (mapRes (fun p => define_structs_inner p.1.2 p.1.1 derives) sub_structs.attach).map
        fun ds => { name := struct_name, derives := derives, fields := fields } :: ds.flatten
termination_by sizeOf data
decreasing_by
  exact struct_fields_and_subs_size data struct_name _ h p.1 p.2

/-- Proof-free restatement of `define_structs_inner` used to unfold it
in proofs and concrete evaluations. -/
theorem define_structs_inner_eq (data : Fields) (struct_name : String)
    (derives : Option (List String)) :
    define_structs_inner data struct_name derives =
      match struct_fields_and_subs data struct_name with
      | .err e => .err e
      | .panicked => .panicked
      | .ok (fields, sub_structs) =>
          (mapRes (fun p => define_structs_inner p.2 p.1 derives) sub_structs).map
            fun ds => { name := struct_name, derives := derives, fields := fields } :: ds.flatten := by
  rw [define_structs_inner]
  cases h : struct_fields_and_subs data struct_name with
  | err e => rfl
  | panicked => rfl
  | ok pr =>
    obtain ⟨fields, sub_structs⟩ := pr
    dsimp only
    rw [← mapRes_attach sub_structs (fun p => define_structs_inner p.2 p.1 derives)]

mutual

/-- `define_structs_for_value` of codegen.rs (lines 150-193): walk a
value and emit struct declarations for every struct found through
`Option(Some ..)` (name unchanged), tuple slots (name extended with
`__{i}`), and the first element of an `Array`/`Vec` (name unchanged).
The `dest` vector is embedded as the returned declaration list. -/
def define_structs_for_value (data : Value) (root_struct_name : String)
    (options : Options) : Res (List StructDecl) :=
  let derives := derive_attribute options.structs.derived_traits options.serde_support false
  match data with
  | .option (some value) => define_structs_for_value value root_struct_name options
  | .option none => .ok []
  | .tuple values => define_structs_for_value_tuple values root_struct_name options 0
  | .array _ values =>
      match values with
      | value :: _ => define_structs_for_value value root_struct_name options
      | [] => .ok []
  | .vec values =>
      match values with
      | value :: _ => define_structs_for_value value root_struct_name options
      | [] => .ok []
  | .struct fields => define_structs_inner fields root_struct_name derives
  | _ => .ok []

/-- The `for (i, value) in values.iter().enumerate()` loop of the
`Tuple` arm of `define_structs_for_value`. -/
def define_structs_for_value_tuple (values : List Value) (root_struct_name : String)
    (options : Options) (i : Nat) : Res (List StructDecl) :=
  match values with
  | [] => .ok []
  | value :: rest =>
      let struct_name := root_struct_name ++ "__" ++ toString i
      (define_structs_for_value value struct_name options).bind fun ds =>
        (define_structs_for_value_tuple rest root_struct_name options (i + 1)).map
          fun ds' => ds ++ ds'

end

/-! ## Values tables and enums (`establish_types_for_values`,
`define_enum_from_variants_and_values`, `define_enum_from_keys`,
`define_structs_from_values` of codegen.rs) -/

/-- `establish_types_for_values` of codegen.rs (lines 471-490): clone the
values; error on an empty list; unify them; then derive the declaration
set (`define_structs_for_value`) and the unified value type
(`type_of_value`) from the first value. -/
def establish_types_for_values (values : List Value) (struct_name : String)
    (options : Options) : Res (RustType × List Value × List StructDecl) :=
  if values.isEmpty then .err .expectedValuesInMap
  else
    (unify_values values).bind fun values' =>
      match values' with
      | [] => .panicked
      | first :: _ =>
          (define_structs_for_value first struct_name options).bind fun new_structs =>
            (type_of_value first struct_name none none).bind fun p =>
              .ok (p.1, values', new_structs)

/-- One item of the inherent `impl` block emitted for an enum:
the source-path constant, the all-variants constant, the all-values
constant, or the get-value accessor fn. -/
inductive Inherent where
  | sourcePathConst (name : String) (path : String)
  | allVariantsConst (name : String) (variants : List String)
  | valuesConst (name : String) (value_type : RustType) (values : List RustExpr)
  | getValueFn (name : String) (value_type : RustType)
deriving Repr

/-- The token stream emitted by `define_enum_from_variants_and_values`:
the optional derive attribute, the enum declaration with its variants in
order, the inherent impl items, the optional `Default` impl (holding the
first variant), the optional `Display` impl, the optional `FromStr` impl
(matching each variant name string), and any struct declarations created
for the values table. -/
structure EnumTokens where
  derives : Option (List String)
  name : String
  variants : List String
  inherents : List Inherent
  default_first : Option String
  display : Bool
  from_str_variants : Option (List String)
  new_structs : List StructDecl
deriving Repr

/-- `define_enum_from_variants_and_values` of codegen.rs (lines 195-355).
The `impl_default` arm calls `variants.clone().next().unwrap()`, which
panics when there are no variants; the values-table arm propagates the
result of `establish_types_for_values` with `?`. -/
def define_enum_from_variants_and_values (variants : List String)
    (values : List Value) (use_values : Bool) (enum_name : String)
    (source_file_path : Option String) (options : Options)
    (inherents : List Inherent) : Res EnumTokens :=
  let derives :=
    derive_attribute options.enums.derived_traits options.serde_support
      options.enums.impl_display
  let inherents :=
    match source_file_path, options.source_path_const_name with
    | some sp, some cn => inherents ++ [.sourcePathConst cn sp]
    | _, _ => inherents
  let inherents :=
    match options.enums.all_variants_const_name with
    | some cn => inherents ++ [.allVariantsConst cn variants]
    | none => inherents
  let values_step : Res (List Inherent × List StructDecl) :=
    match use_values, options.enums.all_values_const_name with
    | true, some cn =>
        let struct_name := (options.enums.values_struct_name).getD (enum_name ++ "__Value")
        let value_options : Options :=
          { options with structs := options.enums.values_struct_options }
        (establish_types_for_values values struct_name value_options).map
          fun (value_type, values', new_structs) =>
            let value_exprs := values'.map fun value =>
              define_value value struct_name none none
            let inherents := inherents ++ [.valuesConst cn value_type value_exprs]
            let inherents :=
              match options.enums.get_value_fn_name with
              | some gn => inherents ++ [.getValueFn gn value_type]
              | none => inherents
            (inherents, new_structs)
    | _, _ => .ok (inherents, [])
  values_step.bind fun (inherents, new_struct_tokens) =>
  let default_step : Res (Option String) :=
    if options.enums.impl_default then
      match variants with
      | [] => .panicked
      | v :: _ => .ok (some v)
    else .ok none
  default_step.bind fun default_first =>
  .ok
    { derives := derives
      name := enum_name
      variants := variants
      inherents := inherents
      default_first := default_first
      display := options.enums.impl_display
      from_str_variants := if options.enums.impl_from_str then some variants else none
      new_structs := new_struct_tokens }

/-- `define_enum_from_keys` of codegen.rs (lines 386-401): one variant
per key of the map, in key order, with the map's values as the
values-table source (`use_values = true`). -/
def define_enum_from_keys (data : Fields) (enum_name : String)
    (source_file_path : Option String) (options : Options) : Res EnumTokens :=
  define_enum_from_variants_and_values (data.map Prod.fst) (data.map Prod.snd)
    true enum_name source_file_path options []

/-- The token stream emitted by `define_structs_from_values`: any struct
declarations for the unified value type, and the optional data constant
`pub const NAME: &[#value_type] = &[..];`. -/
structure ValuesOutput where
  new_structs : List StructDecl
  data_const : Option (String × RustType × List RustExpr)
deriving Repr

/-- `define_structs_from_values` of codegen.rs (lines 436-464): derive a
unified type from the map's values and optionally emit the data
constant. -/
def define_structs_from_values (data : Fields) (struct_name : String)
    (options : Options) : Res ValuesOutput :=
  (establish_types_for_values (data.map Prod.snd) struct_name options).map
    fun (value_type, values, new_struct_tokens) =>
      { new_structs := new_struct_tokens
        data_const :=
          match options.structs.struct_data_const_name with
          | some cn =>
              some (cn, value_type, values.map fun v => define_value v struct_name none none)
          | none => none }

/-! ## The older copy of the type walk in `src/edres_core/src/gen.rs`
(`type_of_value`, lines 586-676).  It is identical to the codegen.rs
walk except in the `Option(Some(value))` arm, which returns the inner
type unwrapped instead of `Option<#inner_type>`.  (The unused
`options: &WipOptions` parameter is dropped.) -/

mutual

/-- `type_of_value` of gen.rs: compute the Rust type of a value.  The
`Value::Option(Some(value))` arm (gen.rs lines 613-616) returns
`type_of_value(value, ..)?` directly, with no `Option<..>` wrapper. -/
def gen_type_of_value (v : Value) (struct_name : String) (under_key : Option String)
    (under_index : Option Nat) : Res (RustType × List (String × Fields)) :=
  match v with
  | .unit => .ok (.unit, [])
  | .bool _ => .ok (.bool, [])
  | .char _ => .ok (.char, [])
  | .i8 _ => .ok (.i8, [])
  | .i16 _ => .ok (.i16, [])
  | .i32 _ => .ok (.i32, [])
  | .i64 _ => .ok (.i64, [])
  | .i128 _ => .ok (.i128, [])
  | .isize _ => .ok (.isize, [])
  | .u8 _ => .ok (.u8, [])
  | .u16 _ => .ok (.u16, [])
  | .u32 _ => .ok (.u32, [])
  | .u64 _ => .ok (.u64, [])
  | .u128 _ => .ok (.u128, [])
  | .usize _ => .ok (.usize, [])
  | .f32 _ => .ok (.f32, [])
  | .f64 _ => .ok (.f64, [])
  | .string _ => .ok (.cowStr, [])
  | .option (some value) => gen_type_of_value value struct_name under_key none
  | .option none => .ok (.option .unit, [])
  | .array len values =>
      if values.length = len then
        match values with
        | [] => .ok (.array .unit len, [])
        | v0 :: _ =>
            (gen_type_of_value v0 struct_name under_key none).map fun p =>
              (.array p.1 len, p.2)
      else .panicked
  | .vec values =>
      match values with
      | [] => .ok (.cowSlice .unit, [])
      | v0 :: _ =>
          (gen_type_of_value v0 struct_name under_key none).map fun p =>
            (.cowSlice p.1, p.2)
  | .tuple values =>
      (gen_type_of_value_tuple values struct_name under_key 0).map fun p =>
        (.tuple p.1, p.2)
  | .struct mapping =>
      let name := nested_struct_name struct_name under_key under_index
      .ok (.named name, [(name, mapping)])

/-- The `Tuple` loop of the gen.rs `type_of_value`. -/
def gen_type_of_value_tuple (vs : List Value) (struct_name : String)
    (under_key : Option String) (i : Nat) :
    Res (List RustType × List (String × Fields)) :=
  match vs with
  | [] => .ok ([], [])
  | v :: rest =>
      (gen_type_of_value v struct_name under_key (some i)).bind fun p =>
        (gen_type_of_value_tuple rest struct_name under_key (i + 1)).map fun q =>
          (p.1 :: q.1, p.2 ++ q.2)

end

/-! ## Observers used to state the claims -/

mutual

/-- The names of all struct literals occurring in an emitted expression,
in pre-order (the composite type names a literal references). -/
def structLitNames : RustExpr → List String
  | .someV e => structLitNames e
  | .arrayLit es => structLitNamesList es
  | .cowBorrowedSlice es => structLitNamesList es
  | .tupleLit es => structLitNamesList es
  | .structLit name fields => name :: structLitNamesFields fields
  | _ => []

def structLitNamesList : List RustExpr → List String
  | [] => []
  | e :: rest => structLitNames e ++ structLitNamesList rest

def structLitNamesFields : List (String × RustExpr) → List String
  | [] => []
  | (_, e) :: rest => structLitNames e ++ structLitNamesFields rest

end

mutual

/-- A value contains no `Option` node anywhere in its tree. -/
def noOptionAnywhere : Value → Bool
  | .option _ => false
  | .tuple vs => noOptionList vs
  | .array _ vs => noOptionList vs
  | .vec vs => noOptionList vs
  | .struct fs => noOptionFields fs
  | _ => true

/-- No `Option` node in any element of a list of values. -/
def noOptionList : List Value → Bool
  | [] => true
  | v :: rest => noOptionAnywhere v && noOptionList rest

/-- No `Option` node in any field value. -/
def noOptionFields : List (String × Value) → Bool
  | [] => true
  | (_, v) :: rest => noOptionAnywhere v && noOptionFields rest

end

mutual

/-- Every `Array(len, vs)` node of the value satisfies `len = vs.length`
(the Generic Value invariant of the spec). -/
def arraysWellFormed : Value → Bool
  | .option (some v) => arraysWellFormed v
  | .option none => true
  | .tuple vs => arraysWellFormedList vs
  | .array len vs => (vs.length = len : Bool) && arraysWellFormedList vs
  | .vec vs => arraysWellFormedList vs
  | .struct fs => arraysWellFormedFields fs
  | _ => true

def arraysWellFormedList : List Value → Bool
  | [] => true
  | v :: rest => arraysWellFormed v && arraysWellFormedList rest

def arraysWellFormedFields : List (String × Value) → Bool
  | [] => true
  | (_, v) :: rest => arraysWellFormed v && arraysWellFormedFields rest

end

/-- A scalar (non-container, non-optional) value. -/
def isScalarValue : Value → Bool
  | .option _ => false
  | .tuple _ => false
  | .array _ _ => false
  | .vec _ => false
  | .struct _ => false
  | _ => true

/-! ## Claim theorems -/

/-- C5: for every sequence of values and every `max_array_size` setting,
`array_or_vec` returns the fixed-array value `Array(seq.len(), seq)` if
and only if `max_array_size` is `Some m` with `seq.len() ≤ m`, and
otherwise returns the variable-length `Vec(seq)`; in particular a
sequence of length exactly `m` becomes a fixed array, a sequence of
length `m + 1` becomes a variable sequence, and an unset (`None`)
threshold always yields `Vec`. -/
theorem array_or_vec_threshold :
    (∀ (seq : List Value) (mas : Option Nat),
      array_or_vec seq mas = .array seq.length seq ↔
        ∃ m, mas = some m ∧ seq.length ≤ m) ∧
    (∀ (seq : List Value) (mas : Option Nat),
      array_or_vec seq mas = .vec seq ↔
        ¬ ∃ m, mas = some m ∧ seq.length ≤ m) ∧
    (∀ m : Nat, array_or_vec (List.replicate m .unit) (some m) =
      .array m (List.replicate m .unit)) ∧
    (∀ m : Nat, array_or_vec (List.replicate (m + 1) .unit) (some m) =
      .vec (List.replicate (m + 1) .unit)) ∧
    (∀ seq : List Value, array_or_vec seq none = .vec seq) := by
  refine ⟨?_, ?_, ?_, ?_, ?_⟩
  · intro seq mas
    cases mas with
    | none => simp [array_or_vec]
    | some m =>
      by_cases h : seq.length ≤ m <;> simp [array_or_vec, h]
  · intro seq mas
    cases mas with
    | none => simp [array_or_vec]
    | some m =>
      by_cases h : seq.length ≤ m <;> simp [array_or_vec, h]
  · intro m
    simp [array_or_vec]
  · intro m
    simp [array_or_vec]
  · intro seq
    simp [array_or_vec]

/-- C8 counterexample: with preferred size `ISize`, `preferred_int` does
not hold the input value exactly: at `v = 2^64` it returns `ISize(0)`
(the `value as isize` cast wraps), so the claimed no-truncation property
fails. -/
theorem preferred_int_isize_truncates :
    preferred_int (2 ^ 64) .iSize = .isize 0 ∧
    intValueOf (preferred_int (2 ^ 64) .iSize) ≠ some (2 ^ 64) := by
  constructor
  · simp [preferred_int, wrapCast]
  · simp [preferred_int, wrapCast, intValueOf]

theorem fitsWidth8 (v : Int) : fitsWidth v 8 ↔ -128 ≤ v ∧ v < 128 := by
  norm_num [fitsWidth]

theorem fitsWidth16 (v : Int) : fitsWidth v 16 ↔ -32768 ≤ v ∧ v < 32768 := by
  norm_num [fitsWidth]

theorem fitsWidth32 (v : Int) : fitsWidth v 32 ↔ -2147483648 ≤ v ∧ v < 2147483648 := by
  norm_num [fitsWidth]

theorem fitsWidth64 (v : Int) :
    fitsWidth v 64 ↔ -9223372036854775808 ≤ v ∧ v < 9223372036854775808 := by
  norm_num [fitsWidth]

theorem fitsWidth128 (v : Int) :
    fitsWidth v 128 ↔
      -170141183460469231731687303715884105728 ≤ v ∧
        v < 170141183460469231731687303715884105728 := by
  norm_num [fitsWidth]

theorem preferred_int_i8_eq (v : Int) :
    preferred_int v .i8 =
      if -128 ≤ v ∧ v ≤ 127 then .i8 v
      else if -32768 ≤ v ∧ v ≤ 32767 then .i16 v
      else if -2147483648 ≤ v ∧ v ≤ 2147483647 then .i32 v
      else if -9223372036854775808 ≤ v ∧ v ≤ 9223372036854775807 then .i64 v
      else .i128 v := by
  simp [preferred_int]

theorem preferred_int_i16_eq (v : Int) :
    preferred_int v .i16 =
      if -32768 ≤ v ∧ v ≤ 32767 then .i16 v
      else if -2147483648 ≤ v ∧ v ≤ 2147483647 then .i32 v
      else if -9223372036854775808 ≤ v ∧ v ≤ 9223372036854775807 then .i64 v
      else .i128 v := by
  simp [preferred_int]

theorem preferred_int_i32_eq (v : Int) :
    preferred_int v .i32 =
      if -2147483648 ≤ v ∧ v ≤ 2147483647 then .i32 v
      else if -9223372036854775808 ≤ v ∧ v ≤ 9223372036854775807 then .i64 v
      else .i128 v := by
  simp [preferred_int]

theorem preferred_int_i64_eq (v : Int) :
    preferred_int v .i64 =
      if -9223372036854775808 ≤ v ∧ v ≤ 9223372036854775807 then .i64 v
      else .i128 v := by
  simp [preferred_int]

theorem preferred_int_i128_eq (v : Int) : preferred_int v .i128 = .i128 v := by
  simp [preferred_int]

/-- C8 (amended): for every integer representable as `i128` and every
preferred size other than `ISize`, `preferred_int` returns a value
holding exactly the input (no truncation or wrap-around): it uses the
preferred width when the value fits in it, and otherwise promotes to the
smallest wider supported signed width in which the value fits.  (With
`ISize` preferred the value is cast to the pointer width unconditionally
and may wrap: see the counterexample.) -/
theorem preferred_int_exact (v : Int) (p : IntSize)
    (hlo : -(2 ^ 127) ≤ v) (hhi : v < 2 ^ 127) (hp : p ≠ .iSize) :
    intValueOf (preferred_int v p) = some v ∧
    (fitsWidth v (intSizeBits p) → intWidthOf (preferred_int v p) = some (intSizeBits p)) ∧
    (¬ fitsWidth v (intSizeBits p) →
      ∃ w, intWidthOf (preferred_int v p) = some w ∧ intSizeBits p < w ∧ fitsWidth v w ∧
        ∀ w' ∈ [8, 16, 32, 64, 128], intSizeBits p < w' → fitsWidth v w' → w ≤ w') := by
  have hlo' : -170141183460469231731687303715884105728 ≤ v := by
    calc (-170141183460469231731687303715884105728 : Int) = -(2 ^ 127) := by norm_num
    _ ≤ v := hlo
  have hhi' : v < 170141183460469231731687303715884105728 := by
    calc v < 2 ^ 127 := hhi
    _ = 170141183460469231731687303715884105728 := by norm_num
  cases p with
  | iSize => exact absurd rfl hp
  | i8 =>
    rw [preferred_int_i8_eq]
    simp only [intSizeBits, fitsWidth8]
    split_ifs with h1 h2 h3 h4
    · exact ⟨rfl, fun _ => rfl, fun hno => absurd (by omega) hno⟩
    · refine ⟨rfl, fun hfit => absurd hfit (by omega), fun _ => ⟨16, rfl, by omega, ?_, ?_⟩⟩
      · rw [fitsWidth16]; omega
      · intro w' hw'
        simp only [List.mem_cons, List.mem_singleton] at hw'
        rcases hw' with rfl | rfl | rfl | rfl | rfl | h <;> first | (intro hlt _; omega) | cases h
    · refine ⟨rfl, fun hfit => absurd hfit (by omega), fun _ => ⟨32, rfl, by omega, ?_, ?_⟩⟩
      · rw [fitsWidth32]; omega
      · intro w' hw'
        simp only [List.mem_cons, List.mem_singleton] at hw'
        rcases hw' with rfl | rfl | rfl | rfl | rfl | h
        · intro hlt _; omega
        · rw [fitsWidth16]; intro _ hfit; omega
        · intro _ _; omega
        · intro _ _; omega
        · intro _ _; omega
        · cases h
    · refine ⟨rfl, fun hfit => absurd hfit (by omega), fun _ => ⟨64, rfl, by omega, ?_, ?_⟩⟩
      · rw [fitsWidth64]; omega
      · intro w' hw'
        simp only [List.mem_cons, List.mem_singleton] at hw'
        rcases hw' with rfl | rfl | rfl | rfl | rfl | h
        · intro hlt _; omega
        · rw [fitsWidth16]; intro _ hfit; omega
        · rw [fitsWidth32]; intro _ hfit; omega
        · intro _ _; omega
        · intro _ _; omega
        · cases h
    · refine ⟨rfl, fun hfit => absurd hfit (by omega), fun _ => ⟨128, rfl, by omega, ?_, ?_⟩⟩
      · rw [fitsWidth128]; omega
      · intro w' hw'
        simp only [List.mem_cons, List.mem_singleton] at hw'
        rcases hw' with rfl | rfl | rfl | rfl | rfl | h
        · intro hlt _; omega
        · rw [fitsWidth16]; intro _ hfit; omega
        · rw [fitsWidth32]; intro _ hfit; omega
        · rw [fitsWidth64]; intro _ hfit; omega
        · intro _ _; omega
        · cases h
  | i16 =>
    rw [preferred_int_i16_eq]
    simp only [intSizeBits, fitsWidth16]
    split_ifs with h1 h2 h3
    · exact ⟨rfl, fun _ => rfl, fun hno => absurd (by omega) hno⟩
    · refine ⟨rfl, fun hfit => absurd hfit (by omega), fun _ => ⟨32, rfl, by omega, ?_, ?_⟩⟩
      · rw [fitsWidth32]; omega
      · intro w' hw'
        simp only [List.mem_cons, List.mem_singleton] at hw'
        rcases hw' with rfl | rfl | rfl | rfl | rfl | h <;>
          first | (intro hlt _; omega) | cases h
    · refine ⟨rfl, fun hfit => absurd hfit (by omega), fun _ => ⟨64, rfl, by omega, ?_, ?_⟩⟩
      · rw [fitsWidth64]; omega
      · intro w' hw'
        simp only [List.mem_cons, List.mem_singleton] at hw'
        rcases hw' with rfl | rfl | rfl | rfl | rfl | h
        · intro hlt _; omega
        · intro hlt _; omega
        · rw [fitsWidth32]; intro _ hfit; omega
        · intro _ _; omega
        · intro _ _; omega
        · cases h
    · refine ⟨rfl, fun hfit => absurd hfit (by omega), fun _ => ⟨128, rfl, by omega, ?_, ?_⟩⟩
      · rw [fitsWidth128]; omega
      · intro w' hw'
        simp only [List.mem_cons, List.mem_singleton] at hw'
        rcases hw' with rfl | rfl | rfl | rfl | rfl | h
        · intro hlt _; omega
        · intro hlt _; omega
        · rw [fitsWidth32]; intro _ hfit; omega
        · rw [fitsWidth64]; intro _ hfit; omega
        · intro _ _; omega
        · cases h
  | i32 =>
    rw [preferred_int_i32_eq]
    simp only [intSizeBits, fitsWidth32]
    split_ifs with h1 h2
    · exact ⟨rfl, fun _ => rfl, fun hno => absurd (by omega) hno⟩
    · refine ⟨rfl, fun hfit => absurd hfit (by omega), fun _ => ⟨64, rfl, by omega, ?_, ?_⟩⟩
      · rw [fitsWidth64]; omega
      · intro w' hw'
        simp only [List.mem_cons, List.mem_singleton] at hw'
        rcases hw' with rfl | rfl | rfl | rfl | rfl | h <;>
          first | (intro hlt _; omega) | cases h
    · refine ⟨rfl, fun hfit => absurd hfit (by omega), fun _ => ⟨128, rfl, by omega, ?_, ?_⟩⟩
      · rw [fitsWidth128]; omega
      · intro w' hw'
        simp only [List.mem_cons, List.mem_singleton] at hw'
        rcases hw' with rfl | rfl | rfl | rfl | rfl | h
        · intro hlt _; omega
        · intro hlt _; omega
        · intro hlt _; omega
        · rw [fitsWidth64]; intro _ hfit; omega
        · intro _ _; omega
        · cases h
  | i64 =>
    rw [preferred_int_i64_eq]
    simp only [intSizeBits, fitsWidth64]
    split_ifs with h1
    · exact ⟨rfl, fun _ => rfl, fun hno => absurd (by omega) hno⟩
    · refine ⟨rfl, fun hfit => absurd hfit (by omega), fun _ => ⟨128, rfl, by omega, ?_, ?_⟩⟩
      · rw [fitsWidth128]; omega
      · intro w' hw'
        simp only [List.mem_cons, List.mem_singleton] at hw'
        rcases hw' with rfl | rfl | rfl | rfl | rfl | h <;>
          first | (intro hlt _; omega) | cases h
  | i128 =>
    rw [preferred_int_i128_eq]
    simp only [intSizeBits, fitsWidth128]
    exact ⟨rfl, fun _ => rfl, fun hno => absurd (by omega) hno⟩

/-- C8 witness: the amended theorem applied at the concrete input
`v = 129`, preferred size `I8` (which promotes to `I16`). -/
theorem preferred_int_exact_witness :
    (-(2 ^ 127) ≤ (129 : Int)) ∧ ((129 : Int) < 2 ^ 127) ∧ (IntSize.i8 ≠ .iSize) ∧
    (intValueOf (preferred_int 129 .i8) = some 129 ∧
      (fitsWidth 129 (intSizeBits .i8) →
        intWidthOf (preferred_int 129 .i8) = some (intSizeBits .i8)) ∧
      (¬ fitsWidth 129 (intSizeBits .i8) →
        ∃ w, intWidthOf (preferred_int 129 .i8) = some w ∧ intSizeBits .i8 < w ∧
          fitsWidth 129 w ∧
          ∀ w' ∈ [8, 16, 32, 64, 128], intSizeBits .i8 < w' → fitsWidth 129 w' → w ≤ w')) :=
  ⟨by norm_num, by norm_num, by decide,
    preferred_int_exact 129 .i8 (by norm_num) (by norm_num) (by decide)⟩

/-- C2: for every record reached during type inference, the generated
nested type name is the enclosing type name followed by `__{key}` when
reached via a record field and `__{index}` when reached via a tuple
slot, with chains concatenating; in particular, for root name `Root`,
the record under field `a` of `{"a": {"b": 1}}` is declared as
`Root__a`, and a record in tuple slot 1 of field `a` is declared as
`Root__a__1`. -/
theorem nested_type_names :
    (∀ (fields : Fields) (base k : String),
      type_of_value (.struct fields) base (some k) none =
        .ok (.named (base ++ "__" ++ k), [(base ++ "__" ++ k, fields)])) ∧
    (∀ (fields : Fields) (base : String) (i : Nat),
      type_of_value (.struct fields) base none (some i) =
        .ok (.named (base ++ "__" ++ toString i), [(base ++ "__" ++ toString i, fields)])) ∧
    (∀ (fields : Fields) (base k : String) (i : Nat),
      type_of_value (.struct fields) base (some k) (some i) =
        .ok (.named (base ++ "__" ++ k ++ "__" ++ toString i),
          [(base ++ "__" ++ k ++ "__" ++ toString i, fields)])) ∧
    (define_structs_inner [("a", .struct [("b", .i32 1)])] "Root" none =
      .ok [{ name := "Root", derives := none, fields := [("a", .named "Root__a")] },
           { name := "Root__a", derives := none, fields := [("b", .i32)] }]) ∧
    (define_structs_inner [("a", .tuple [.i32 1, .struct [("b", .i32 1)]])] "Root" none =
      .ok [{ name := "Root", derives := none,
             fields := [("a", .tuple [.i32, .named "Root__a__1"])] },
           { name := "Root__a__1", derives := none, fields := [("b", .i32)] }]) := by
  refine ⟨?_, ?_, ?_, ?_, ?_⟩
  · intro fields base k
    simp [type_of_value, nested_struct_name, String.append_assoc, String.append_empty]
  · intro fields base i
    simp [type_of_value, nested_struct_name, String.append_assoc, String.append_empty]
  · intro fields base k i
    simp [type_of_value, nested_struct_name, String.append_assoc, String.append_empty]
  · simp [define_structs_inner_eq, struct_fields_and_subs, type_of_value,
      type_of_value_tuple, mapRes, nested_struct_name]
  · simp [define_structs_inner_eq, struct_fields_and_subs, type_of_value,
      type_of_value_tuple, mapRes, nested_struct_name]
    rfl

/-- C3: the claim holds for the codegen.rs `type_of_value`, which maps
`Option(Some v)` to `Option<type of v>` and `Option(None)` to
`Option<()>`; but the older copy of `type_of_value` in gen.rs (lines
613-618) returns the inner type with no `Option` wrapper for
`Option(Some v)`: on `Option(Some(Bool(true)))` it yields `bool`, not
`Option<bool>`, even though its own `define_value` emits `Some(true)` —
so the claim fails on the gen.rs code. -/
theorem option_type_inference :
    (∀ (v : Value) (n : String) (k : Option String) (io : Option Nat),
      type_of_value (.option (some v)) n k io =
        (type_of_value v n k none).map fun p => (.option p.1, p.2)) ∧
    (∀ (n : String) (k : Option String) (io : Option Nat),
      type_of_value (.option none) n k io = .ok (.option .unit, [])) ∧
    (type_of_value (.option (some (.bool true))) "Root" none none =
      .ok (.option .bool, [])) ∧
    (gen_type_of_value (.option (some (.bool true))) "Root" none none =
      .ok (.bool, [])) ∧
    RustType.bool ≠ .option .bool := by
  refine ⟨?_, ?_, ?_, ?_, ?_⟩
  · intro v n k io
    simp [type_of_value]
  · intro n k io
    simp [type_of_value]
  · simp [type_of_value]
  · simp [gen_type_of_value]
  · simp

/-! ## Totality and frame lemmas for unification and type inference -/

theorem unify_total_bound (N : Nat) :
    (∀ v : Value, sizeOf v ≤ N → ∃ w, unify_value v = .ok w) ∧
    (∀ vs : List Value, sizeOf vs ≤ N → ∃ ws, unify_each vs = .ok ws) ∧
    (∀ fs : List (String × Value), sizeOf fs ≤ N → ∃ gs, unify_fields fs = .ok gs) := by
  induction N with
  | zero =>
    refine ⟨fun v hv => ?_, fun vs hvs => ?_, fun fs hfs => ?_⟩
    · cases v <;> simp at hv
    · cases vs <;> simp at hvs
    · cases fs <;> simp at hfs
  | succ N ih =>
    refine ⟨fun v hv => ?_, fun vs hvs => ?_, fun fs hfs => ?_⟩
    · cases v with
      | option x =>
        cases x with
        | none => exact ⟨_, by simp [unify_value] <;> rfl⟩
        | some inner =>
          simp only [Value.option.sizeOf_spec, Option.some.sizeOf_spec] at hv
          obtain ⟨w, hw⟩ := ih.1 inner (by omega)
          exact ⟨.option (some w), by simp [unify_value, hw] <;> rfl⟩
      | tuple items =>
        simp only [Value.tuple.sizeOf_spec] at hv
        obtain ⟨ws, hw⟩ := ih.2.1 items (by omega)
        exact ⟨.tuple ws, by simp [unify_value, hw] <;> rfl⟩
      | array n items =>
        simp only [Value.array.sizeOf_spec] at hv
        obtain ⟨ws, hw⟩ := ih.2.1 items (by omega)
        exact ⟨_, by simp [unify_value, unify_values, hw] <;> rfl⟩
      | vec items =>
        simp only [Value.vec.sizeOf_spec] at hv
        obtain ⟨ws, hw⟩ := ih.2.1 items (by omega)
        exact ⟨_, by simp [unify_value, unify_values, hw] <;> rfl⟩
      | struct inner =>
        simp only [Value.struct.sizeOf_spec] at hv
        obtain ⟨gs, hg⟩ := ih.2.2 inner (by omega)
        exact ⟨.struct gs, by simp [unify_value, hg] <;> rfl⟩
      | unit => exact ⟨_, by simp [unify_value] <;> rfl⟩
      | bool _ => exact ⟨_, by simp [unify_value] <;> rfl⟩
      | char _ => exact ⟨_, by simp [unify_value] <;> rfl⟩
      | i8 _ => exact ⟨_, by simp [unify_value] <;> rfl⟩
      | i16 _ => exact ⟨_, by simp [unify_value] <;> rfl⟩
      | i32 _ => exact ⟨_, by simp [unify_value] <;> rfl⟩
      | i64 _ => exact ⟨_, by simp [unify_value] <;> rfl⟩
      | i128 _ => exact ⟨_, by simp [unify_value] <;> rfl⟩
      | isize _ => exact ⟨_, by simp [unify_value] <;> rfl⟩
      | u8 _ => exact ⟨_, by simp [unify_value] <;> rfl⟩
      | u16 _ => exact ⟨_, by simp [unify_value] <;> rfl⟩
      | u32 _ => exact ⟨_, by simp [unify_value] <;> rfl⟩
      | u64 _ => exact ⟨_, by simp [unify_value] <;> rfl⟩
      | u128 _ => exact ⟨_, by simp [unify_value] <;> rfl⟩
      | usize _ => exact ⟨_, by simp [unify_value] <;> rfl⟩
      | f32 _ => exact ⟨_, by simp [unify_value] <;> rfl⟩
      | f64 _ => exact ⟨_, by simp [unify_value] <;> rfl⟩
      | string _ => exact ⟨_, by simp [unify_value] <;> rfl⟩
    · cases vs with
      | nil => exact ⟨[], by simp [unify_each] <;> rfl⟩
      | cons v rest =>
        simp only [List.cons.sizeOf_spec] at hvs
        obtain ⟨w, hw⟩ := ih.1 v (by omega)
        obtain ⟨ws, hws⟩ := ih.2.1 rest (by omega)
        exact ⟨w :: ws, by simp [unify_each, hw, hws] <;> rfl⟩
    · cases fs with
      | nil => exact ⟨[], by simp [unify_fields] <;> rfl⟩
      | cons kv rest =>
        obtain ⟨k, v⟩ := kv
        simp only [List.cons.sizeOf_spec, Prod.mk.sizeOf_spec] at hfs
        obtain ⟨w, hw⟩ := ih.1 v (by omega)
        obtain ⟨gs, hgs⟩ := ih.2.2 rest (by omega)
        exact ⟨(k, w) :: gs, by simp [unify_fields, hw, hgs] <;> rfl⟩

theorem unify_each_total (vs : List Value) : ∃ ws, unify_each vs = .ok ws :=
  (unify_total_bound (sizeOf vs)).2.1 vs le_rfl

/-- A value with no `Option` node is not an `Option` at top level. -/
theorem noOption_not_option (v : Value) (h : noOptionAnywhere v = true) :
    isOptionValue v = false := by
  cases v <;> simp_all [noOptionAnywhere, isOptionValue]

theorem unify_id_bound (N : Nat) :
    (∀ v : Value, sizeOf v ≤ N → noOptionAnywhere v = true → unify_value v = .ok v) ∧
    (∀ vs : List Value, sizeOf vs ≤ N → noOptionList vs = true →
      unify_each vs = .ok vs ∧ unify_values vs = .ok vs) ∧
    (∀ fs : List (String × Value), sizeOf fs ≤ N → noOptionFields fs = true →
      unify_fields fs = .ok fs) := by
  induction N with
  | zero =>
    refine ⟨fun v hv => ?_, fun vs hvs => ?_, fun fs hfs => ?_⟩
    · cases v <;> simp at hv
    · cases vs <;> simp at hvs
    · cases fs <;> simp at hfs
  | succ N ih =>
    have listNoOpt : ∀ vs : List Value, noOptionList vs = true →
        vs.any isOptionValue = false := by
      intro vs h
      induction vs with
      | nil => simp
      | cons v rest ihl =>
        simp only [noOptionList, Bool.and_eq_true] at h
        simp [noOption_not_option v h.1, ihl h.2]
    refine ⟨fun v hv hno => ?_, fun vs hvs hno => ?_, fun fs hfs hno => ?_⟩
    · cases v with
      | option x => simp [noOptionAnywhere] at hno
      | tuple items =>
        simp only [Value.tuple.sizeOf_spec] at hv
        simp only [noOptionAnywhere] at hno
        have := (ih.2.1 items (by omega) hno).1
        simp [unify_value, this]
      | array n items =>
        simp only [Value.array.sizeOf_spec] at hv
        simp only [noOptionAnywhere] at hno
        have := (ih.2.1 items (by omega) hno).2
        simp [unify_value, this]
      | vec items =>
        simp only [Value.vec.sizeOf_spec] at hv
        simp only [noOptionAnywhere] at hno
        have := (ih.2.1 items (by omega) hno).2
        simp [unify_value, this]
      | struct inner =>
        simp only [Value.struct.sizeOf_spec] at hv
        simp only [noOptionAnywhere] at hno
        have := ih.2.2 inner (by omega) hno
        simp [unify_value, this]
      | unit => simp [unify_value]
      | bool _ => simp [unify_value]
      | char _ => simp [unify_value]
      | i8 _ => simp [unify_value]
      | i16 _ => simp [unify_value]
      | i32 _ => simp [unify_value]
      | i64 _ => simp [unify_value]
      | i128 _ => simp [unify_value]
      | isize _ => simp [unify_value]
      | u8 _ => simp [unify_value]
      | u16 _ => simp [unify_value]
      | u32 _ => simp [unify_value]
      | u64 _ => simp [unify_value]
      | u128 _ => simp [unify_value]
      | usize _ => simp [unify_value]
      | f32 _ => simp [unify_value]
      | f64 _ => simp [unify_value]
      | string _ => simp [unify_value]
    · have heach : unify_each vs = .ok vs := by
        cases vs with
        | nil => simp [unify_each]
        | cons v rest =>
          simp only [List.cons.sizeOf_spec] at hvs
          simp only [noOptionList, Bool.and_eq_true] at hno
          have h1 := ih.1 v (by omega) hno.1
          have h2 := (ih.2.1 rest (by omega) hno.2).1
          simp [unify_each, h1, h2]
      refine ⟨heach, ?_⟩
      have hfalse := listNoOpt vs hno
      simp only [unify_values, heach, Res.bind_ok, hfalse]
      simp
    · cases fs with
      | nil => simp [unify_fields]
      | cons kv rest =>
        obtain ⟨k, v⟩ := kv
        simp only [List.cons.sizeOf_spec, Prod.mk.sizeOf_spec] at hfs
        simp only [noOptionFields, Bool.and_eq_true] at hno
        have h1 := ih.1 v (by omega) hno.1
        have h2 := ih.2.2 rest (by omega) hno.2
        simp [unify_fields, h1, h2]

/-- C4: `unify_values` first recursively unifies inside each element
and then, if and only if at least one element of the slice is an
`Option` value, wraps every element of the slice in an `Option`; in
particular the sibling list `[v, null]` with `v` a non-null scalar
becomes `[Some(v), None]` and no error is returned. -/
theorem unify_values_optional_promotion :
    (∀ v : Value, isScalarValue v = true →
      unify_values [v, .option none] = .ok [.option (some v), .option none]) ∧
    (∀ vs : List Value, ∃ ws, unify_values vs = .ok ws) ∧
    (∀ (vs ws : List Value), unify_each vs = .ok ws →
      unify_values vs =
        .ok (if ws.any isOptionValue then ws.map wrap_in_option else ws)) := by
  refine ⟨?_, ?_, ?_⟩
  · intro v hs
    cases v <;>
      simp_all [unify_values, unify_each, unify_value, isOptionValue, wrap_in_option,
        isScalarValue]
  · intro vs
    obtain ⟨ws, h⟩ := unify_each_total vs
    exact ⟨if ws.any isOptionValue then ws.map wrap_in_option else ws,
      by simp [unify_values, h]⟩
  · intro vs ws h
    simp [unify_values, h]

/-- C4 witness: the theorem applied at the concrete sibling list
`[true, null]`. -/
theorem unify_values_optional_promotion_witness :
    isScalarValue (.bool true) = true ∧
    unify_values [.bool true, .option none] =
      .ok [.option (some (.bool true)), .option none] :=
  ⟨rfl, unify_values_optional_promotion.1 (.bool true) rfl⟩

/-- C10: for every slice of values in which no `Option` node occurs
anywhere in any element's tree, `unify_values` returns `Ok` and leaves
every element completely unchanged (unification performs no coercion
other than the `Option` promotion). -/
theorem unify_values_frame (vs : List Value) (h : noOptionList vs = true) :
    unify_values vs = .ok vs :=
  ((unify_id_bound (sizeOf vs)).2.1 vs le_rfl h).2

/-- C10 witness: the theorem applied at a concrete option-free slice. -/
theorem unify_values_frame_witness :
    noOptionList [.i32 1, .string "x", .vec [.bool true]] = true ∧
    unify_values [.i32 1, .string "x", .vec [.bool true]] =
      .ok [.i32 1, .string "x", .vec [.bool true]] :=
  ⟨by simp [noOptionList, noOptionAnywhere],
    unify_values_frame _ (by simp [noOptionList, noOptionAnywhere])⟩

theorem type_of_value_total_bound (N : Nat) :
    (∀ v : Value, sizeOf v ≤ N → arraysWellFormed v = true →
      ∀ n k io, ∃ r, type_of_value v n k io = .ok r) ∧
    (∀ vs : List Value, sizeOf vs ≤ N → arraysWellFormedList vs = true →
      ∀ n k i, ∃ r, type_of_value_tuple vs n k i = .ok r) := by
  induction N with
  | zero =>
    refine ⟨fun v hv => ?_, fun vs hvs => ?_⟩
    · cases v <;> simp at hv
    · cases vs <;> simp at hvs
  | succ N ih =>
    refine ⟨fun v hv hwf n k io => ?_, fun vs hvs hwf n k i => ?_⟩
    · cases v with
      | option x =>
        cases x with
        | none => exact ⟨_, by simp [type_of_value] <;> rfl⟩
        | some inner =>
          simp only [Value.option.sizeOf_spec, Option.some.sizeOf_spec] at hv
          simp only [arraysWellFormed] at hwf
          obtain ⟨r, hr⟩ := ih.1 inner (by omega) hwf n k none
          exact ⟨(.option r.1, r.2), by simp [type_of_value, hr]⟩
      | array len vs =>
        simp only [Value.array.sizeOf_spec] at hv
        simp only [arraysWellFormed, Bool.and_eq_true, decide_eq_true_eq] at hwf
        cases vs with
        | nil => exact ⟨_, by simp [type_of_value, hwf.1] <;> rfl⟩
        | cons v0 rest =>
          simp only [arraysWellFormedList, Bool.and_eq_true] at hwf
          simp only [List.cons.sizeOf_spec] at hv
          obtain ⟨r, hr⟩ := ih.1 v0 (by omega) hwf.2.1 n k none
          exact ⟨(.array r.1 len, r.2), by simp [type_of_value, hwf.1, hr]⟩
      | vec vs =>
        simp only [Value.vec.sizeOf_spec] at hv
        simp only [arraysWellFormed] at hwf
        cases vs with
        | nil => exact ⟨_, by simp [type_of_value] <;> rfl⟩
        | cons v0 rest =>
          simp only [arraysWellFormedList, Bool.and_eq_true] at hwf
          simp only [List.cons.sizeOf_spec] at hv
          obtain ⟨r, hr⟩ := ih.1 v0 (by omega) hwf.1 n k none
          exact ⟨(.cowSlice r.1, r.2), by simp [type_of_value, hr]⟩
      | tuple vs =>
        simp only [Value.tuple.sizeOf_spec] at hv
        simp only [arraysWellFormed] at hwf
        obtain ⟨r, hr⟩ := ih.2 vs (by omega) hwf n k 0
        exact ⟨(.tuple r.1, r.2), by simp [type_of_value, hr]⟩
      | struct fields => exact ⟨_, by simp [type_of_value] <;> rfl⟩
      | unit => exact ⟨_, by simp [type_of_value] <;> rfl⟩
      | bool _ => exact ⟨_, by simp [type_of_value] <;> rfl⟩
      | char _ => exact ⟨_, by simp [type_of_value] <;> rfl⟩
      | i8 _ => exact ⟨_, by simp [type_of_value] <;> rfl⟩
      | i16 _ => exact ⟨_, by simp [type_of_value] <;> rfl⟩
      | i32 _ => exact ⟨_, by simp [type_of_value] <;> rfl⟩
      | i64 _ => exact ⟨_, by simp [type_of_value] <;> rfl⟩
      | i128 _ => exact ⟨_, by simp [type_of_value] <;> rfl⟩
      | isize _ => exact ⟨_, by simp [type_of_value] <;> rfl⟩
      | u8 _ => exact ⟨_, by simp [type_of_value] <;> rfl⟩
      | u16 _ => exact ⟨_, by simp [type_of_value] <;> rfl⟩
      | u32 _ => exact ⟨_, by simp [type_of_value] <;> rfl⟩
      | u64 _ => exact ⟨_, by simp [type_of_value] <;> rfl⟩
      | u128 _ => exact ⟨_, by simp [type_of_value] <;> rfl⟩
      | usize _ => exact ⟨_, by simp [type_of_value] <;> rfl⟩
      | f32 _ => exact ⟨_, by simp [type_of_value] <;> rfl⟩
      | f64 _ => exact ⟨_, by simp [type_of_value] <;> rfl⟩
      | string _ => exact ⟨_, by simp [type_of_value] <;> rfl⟩
    · cases vs with
      | nil => exact ⟨_, by simp [type_of_value_tuple] <;> rfl⟩
      | cons v rest =>
        simp only [List.cons.sizeOf_spec] at hvs
        simp only [arraysWellFormedList, Bool.and_eq_true] at hwf
        obtain ⟨r, hr⟩ := ih.1 v (by omega) hwf.1 n k (some i)
        obtain ⟨q, hq⟩ := ih.2 rest (by omega) hwf.2 n k (i + 1)
        exact ⟨(r.1 :: q.1, r.2 ++ q.2), by simp [type_of_value_tuple, hr, hq]⟩

/-- C9: under the precondition that every `Array(n, elements)` node of
the input satisfies `n = elements.len()`, type inference
(`type_of_value`) succeeds on every value: the internal length
assertion never fires and every value kind maps to a defined type, so
no panic or error occurs. -/
theorem type_of_value_no_panic (v : Value) (h : arraysWellFormed v = true)
    (n : String) (k : Option String) (io : Option Nat) :
    ∃ r, type_of_value v n k io = .ok r :=
  (type_of_value_total_bound (sizeOf v)).1 v le_rfl h n k io

/-- C9 witness: the theorem applied at a concrete well-formed value
containing an array node. -/
theorem type_of_value_no_panic_witness :
    arraysWellFormed (.struct [("a", .array 1 [.unit])]) = true ∧
    ∃ r, type_of_value (.struct [("a", .array 1 [.unit])]) "Root" none none = .ok r :=
  ⟨by simp [arraysWellFormed, arraysWellFormedList, arraysWellFormedFields],
    type_of_value_no_panic _
      (by simp [arraysWellFormed, arraysWellFormedList, arraysWellFormedFields])
      "Root" none none⟩

/-- C1 (code bug): the claim fails because the two walks treat the
tuple-index context differently: `type_of_value` clears `under_index`
when passing through `Option(Some ..)` / `Array` / `Vec` nodes
(codegen.rs lines 786, 797, 806: it passes `None`), while
`define_value` passes `under_index` through unchanged (lines 863,
871, 878).  For the record `{"a": (Some({"b": ()}),)}` with root name
`Root`, the type-inference walk declares `Root` and `Root__a` (and
types field `a` as `(Option<Root__a>,)`), but the emitted literal
references `Root__a__0`, a name that exists in no emitted
declaration, so the generated constant cannot type-check. -/
theorem type_value_walks_disagree :
    (define_structs_inner [("a", .tuple [.option (some (.struct [("b", .unit)]))])]
        "Root" none =
      .ok [{ name := "Root", derives := none,
             fields := [("a", .tuple [.option (.named "Root__a")])] },
           { name := "Root__a", derives := none, fields := [("b", .unit)] }]) ∧
    (define_structs_for_value (.struct [("a", .tuple [.option (some (.struct [("b", .unit)]))])])
        "Root" .minimal =
      .ok [{ name := "Root", derives := none,
             fields := [("a", .tuple [.option (.named "Root__a")])] },
           { name := "Root__a", derives := none, fields := [("b", .unit)] }]) ∧
    (define_struct_value [("a", .tuple [.option (some (.struct [("b", .unit)]))])] "Root" =
      .structLit "Root"
        [("a", .tupleLit [.someV (.structLit "Root__a__0" [("b", .unit)])])]) ∧
    (structLitNames
        (define_struct_value [("a", .tuple [.option (some (.struct [("b", .unit)]))])] "Root") =
      ["Root", "Root__a__0"]) ∧
    ("Root__a__0" ∉ (["Root", "Root__a"] : List String)) := by
  have hdecl :
      define_structs_inner [("a", .tuple [.option (some (.struct [("b", .unit)]))])]
          "Root" none =
        .ok [{ name := "Root", derives := none,
               fields := [("a", .tuple [.option (.named "Root__a")])] },
             { name := "Root__a", derives := none, fields := [("b", .unit)] }] := by
    simp [define_structs_inner_eq, struct_fields_and_subs, type_of_value,
      type_of_value_tuple, mapRes, nested_struct_name]
  have hval :
      define_struct_value [("a", .tuple [.option (some (.struct [("b", .unit)]))])] "Root" =
        .structLit "Root"
          [("a", .tupleLit [.someV (.structLit "Root__a__0" [("b", .unit)])])] := by
    simp [define_struct_value, define_struct_value_fields, define_value,
      define_value_tuple, nested_struct_name]
    rfl
  refine ⟨hdecl, ?_, hval, ?_, by decide⟩
  · simp [define_structs_for_value, define_structs_for_value_tuple, Options.minimal,
      derive_attribute, SerdeSupport.should_derive_ser_de, hdecl]
  · rw [hval]
    simp [structLitNames, structLitNamesList, structLitNamesFields]

/-- C6 counterexample: generating an enum from a record with zero
entries under `Options::minimal()` (no values constant requested)
returns `Ok` with an enum declaration that has no variants — not an
empty-source error — so the claim fails as stated for "every options
configuration". -/
theorem empty_map_enum_ok :
    define_enum_from_keys [] "Enum" none .minimal =
      .ok { derives := none, name := "Enum", variants := [], inherents := [],
            default_first := none, display := false, from_str_variants := none,
            new_structs := [] } := by
  simp [define_enum_from_keys, define_enum_from_variants_and_values, Options.minimal,
    derive_attribute, SerdeSupport.should_derive_ser_de]

/-- C6 (amended): generating a values-table from an empty record
returns the empty-source error for every options configuration
(`establish_types_for_values` / `define_structs_from_values`), and
generating an enum from an empty record returns the empty-source error
whenever an all-values constant is requested; with no values constant
requested the enum call instead succeeds with an empty declaration (see
the counterexample), so the error is not returned for every options
configuration. -/
theorem empty_map_errors :
    (∀ (name : String) (options : Options),
      establish_types_for_values [] name options = .err .expectedValuesInMap) ∧
    (∀ (name : String) (options : Options),
      define_structs_from_values [] name options = .err .expectedValuesInMap) ∧
    (∀ (name : String) (src : Option String) (options : Options) (cn : String),
      options.enums.all_values_const_name = some cn →
      define_enum_from_keys [] name src options = .err .expectedValuesInMap) := by
  refine ⟨?_, ?_, ?_⟩
  · intro name options
    simp [establish_types_for_values]
  · intro name options
    simp [define_structs_from_values, establish_types_for_values]
  · intro name src options cn hcn
    simp only [define_enum_from_keys, define_enum_from_variants_and_values, hcn,
      establish_types_for_values, List.map_nil, List.isEmpty_nil, if_true,
      Res.map_err, Res.bind_err]

/-- C6 witness: the amended theorem applied with a values constant
requested (`all_values_const_name = Some "VALUES"`). -/
theorem empty_map_errors_witness :
    ({ Options.minimal with
        enums := { Options.minimal.enums with
          all_values_const_name := some "VALUES" } } : Options).enums.all_values_const_name =
      some "VALUES" ∧
    define_enum_from_keys [] "Enum" none
        { Options.minimal with
          enums := { Options.minimal.enums with
            all_values_const_name := some "VALUES" } } =
      .err .expectedValuesInMap :=
  ⟨rfl, empty_map_errors.2.2 "Enum" none _ "VALUES" rfl⟩

/-- C7: `define_enum_from_keys` emits exactly one enum variant per key,
in the record's key insertion order, never re-sorted; in particular a
record with keys in insertion order `["Second", "First"]` yields the
variant sequence `[Second, First]`. -/
theorem enum_variant_order :
    (∀ (data : Fields) (enum_name : String) (src : Option String)
        (options : Options) (t : EnumTokens),
      define_enum_from_keys data enum_name src options = .ok t →
      t.variants = data.map Prod.fst) ∧
    (define_enum_from_keys [("Second", .i32 2), ("First", .i32 1)] "Enum" none .minimal =
      .ok { derives := none, name := "Enum", variants := ["Second", "First"],
            inherents := [], default_first := none, display := false,
            from_str_variants := none, new_structs := [] }) := by
  constructor
  · intro data enum_name src options t h
    simp only [define_enum_from_keys, define_enum_from_variants_and_values,
      Res.bind_eq_ok] at h
    obtain ⟨a, ha, h⟩ := h
    obtain ⟨inh, ns⟩ := a
    obtain ⟨b, hb, h⟩ := h
    simp only [Res.ok.injEq] at h
    rw [← h]
  · simp [define_enum_from_keys, define_enum_from_variants_and_values, Options.minimal,
      derive_attribute, SerdeSupport.should_derive_ser_de]

/-- C7 witness: the order theorem applied at the concrete two-key
record with insertion order `["Second", "First"]`. -/
theorem enum_variant_order_witness :
    define_enum_from_keys [("Second", .i32 2), ("First", .i32 1)] "Enum" none .minimal =
      .ok { derives := none, name := "Enum", variants := ["Second", "First"],
            inherents := [], default_first := none, display := false,
            from_str_variants := none, new_structs := [] } ∧
    ({ derives := none, name := "Enum", variants := ["Second", "First"],
       inherents := [], default_first := none, display := false,
       from_str_variants := none, new_structs := [] } : EnumTokens).variants =
      ([("Second", Value.i32 2), ("First", Value.i32 1)] : Fields).map Prod.fst := by
  have h : define_enum_from_keys [("Second", .i32 2), ("First", .i32 1)] "Enum" none
      .minimal =
      .ok { derives := none, name := "Enum", variants := ["Second", "First"],
            inherents := [], default_first := none, display := false,
            from_str_variants := none, new_structs := [] } := by
    simp [define_enum_from_keys, define_enum_from_variants_and_values, Options.minimal,
      derive_attribute, SerdeSupport.should_derive_ser_de]
  exact ⟨h, enum_variant_order.1 _ "Enum" none .minimal _ h⟩
